import Mathlib

/-!
# Verification of the GraphStorm distributed processing specification

A shallow embedding of the data model and algorithms of the GraphStorm
distributed transformation and repartitioning engines, as described by the
repository specification, together with proofs of the spec's testable
properties.  The repository source available here is declarative (training
configuration YAML files, a processing configuration JSON, project metadata);
the engine implementations themselves (`graphstorm_processing.repartition_files`,
`graphstorm_processing.distributed_executor`, the config compiler) are not part
of the visible sources, so their behaviour is modelled faithfully from the
specification's words.
-/

namespace GraphStorm

/-! ## Definitions -/

/-- Modelled from the spec: the repartitioning engine
(`graphstorm_processing.repartition_files`, not in the visible sources) divides
a type's global row count `R` into `K` nearly-equal ranges.  Partition `i`
receives `R / K` rows plus one extra row when `i < R % K`, so row counts are
distributed as evenly as possible. -/
def partRowCount (R K i : Nat) : Nat :=
  R / K + (if i < R % K then 1 else 0)

/-- Modelled from the spec: a `PartitionLayout` is the ordered sequence of
partition row-counts for one type, determined only by the type's global row
count `R` and the target partition count `K`. -/
def partitionLayout (R K : Nat) : List Nat :=
  (List.range K).map (partRowCount R K)

/-- Modelled from the spec: splitting a file's global row sequence into
consecutive chunks whose sizes are given by a layout; each output partition is
a contiguous, globally-ordered slice. -/
def splitByLayout {α : Type} : List Nat → List α → List (List α)
  | [], _ => []
  | n :: rest, rows => rows.take n :: splitByLayout rest (rows.drop n)

/-- Modelled from the spec: the repartition operation for a single file —
stream the file's rows, in global-index order, into `K` output partitions whose
sizes are the canonical partition layout of the file's row count. -/
def repartition {α : Type} (K : Nat) (rows : List α) : List (List α) :=
  splitByLayout (partitionLayout rows.length K) rows

/-- Modelled from the spec: the repartitioning error taxonomy — a row-count
mismatch between two files declared to belong to the same type is a fatal
`AlignmentError` for that type (`graphstorm_processing.repartition_files` is
declared in `pyproject.toml` but its implementation is not in the visible
sources). -/
inductive RepartitionError
  | alignmentError
deriving DecidableEq

/-- Modelled from the spec: one entity type's input to the repartition trigger —
the type's name together with every file belonging to it (features, labels,
generated embeddings), each file a list of rows. -/
structure TypeFiles where
  typeName : String
  files : List (List Int)

/-- Modelled from the spec: repartitioning every file of one type. All files of
a type must have equal global row counts; a mismatch raises `AlignmentError`
for that type instead of silently truncating or padding. On success each file
is split with the common canonical layout. -/
def repartitionType (K : Nat) (tf : TypeFiles) :
    Except RepartitionError (List (List (List Int))) :=
  match tf.files with
  | [] => Except.ok []
  | f :: rest =>
      if rest.all (fun g => g.length == f.length) then
        Except.ok ((f :: rest).map (repartition K))
      else Except.error RepartitionError.alignmentError

/-- Modelled from the spec: the manifest entry for one type, written only when
that type's repartitioning succeeded; a failed type publishes no partial
manifest entry. -/
def manifestEntry (K : Nat) (tf : TypeFiles) : Option (String × List Nat) :=
  match repartitionType K tf with
  | Except.ok _ => some (tf.typeName, partitionLayout (tf.files.headD []).length K)
  | Except.error _ => none

/-- Modelled from the spec: the repartition trigger processes every type
independently; a failure for one type does not abort the others. -/
def repartitionAll (K : Nat) (types : List TypeFiles) :
    List (String × Except RepartitionError (List (List (List Int)))) :=
  types.map (fun tf => (tf.typeName, repartitionType K tf))

/-- A binary reduction tree over worker-local partial aggregates: leaves are
workers, internal nodes are pairwise combination steps.  Any shape of the
pairwise reduction described by the spec is one such tree. -/
inductive RTree (α : Type) where
  | leaf : α → RTree α
  | node : RTree α → RTree α → RTree α

/-- The workers (leaf values) of a reduction tree, left to right. -/
def RTree.leaves {α : Type} : RTree α → List α
  | RTree.leaf a => [a]
  | RTree.node l r => l.leaves ++ r.leaves

/-- Reducing a tree: map each leaf to its partial aggregate with `g`, combine
pairwise with `f` following the tree's shape. -/
def RTree.reduce {α β : Type} (f : β → β → β) (g : α → β) : RTree α → β
  | RTree.leaf a => g a
  | RTree.node l r => f (l.reduce f g) (r.reduce f g)

/-- Modelled from the spec: a worker's local partial aggregate for the
categorical statistics phase — the set of distinct values in the worker's
shard (the statistics-phase implementation is not in the visible sources). -/
def localDistinct (shard : List Int) : Finset Int := shard.toFinset

/-- Modelled from the spec: pairwise combination of two categorical partial
aggregates — union of the distinct-value sets. -/
def combineDistinct (a b : Finset Int) : Finset Int := a ∪ b

/-- Modelled from the spec: the global categorical statistics obtained by
reducing all workers' partial aggregates over a reduction tree of shards. -/
def reduceDistinct (t : RTree (List Int)) : Finset Int :=
  t.reduce combineDistinct localDistinct

/-- Modelled from the spec: the categorical vocabulary — the global distinct
values sorted for determinism. -/
def vocabOf (s : Finset Int) : List Int := s.sort (· ≤ ·)

/-- Modelled from the spec: the dense integer code of a known category — its
index in the sorted vocabulary. -/
def codeOf (s : Finset Int) (v : Int) : Nat := (vocabOf s).indexOf v

/-- Modelled from the spec: a worker's partial aggregate for a numerical
column — `none` when the worker's shard holds no rows, otherwise the pair of
the shard's minimum and maximum. -/
def combineMinMax : Option (Int × Int) → Option (Int × Int) → Option (Int × Int)
  | none, b => b
  | a, none => a
  | some (l₁, h₁), some (l₂, h₂) => some (min l₁ l₂, max h₁ h₂)

/-- Modelled from the spec: the min/max aggregate a single sequential scan of a
row list computes, folding each value into the running aggregate. -/
def scanMinMax (rows : List Int) : Option (Int × Int) :=
  rows.foldr (fun x acc => combineMinMax (some (x, x)) acc) none

/-- Modelled from the spec: the global min/max statistics obtained by reducing
all workers' local aggregates over a reduction tree of shards. -/
def reduceMinMax (t : RTree (List Int)) : Option (Int × Int) :=
  t.reduce combineMinMax scanMinMax

/-- Modelled from the spec: the single reserved "unknown" code for a
categorical column — the first integer after the dense codes `0..N-1` of the
known vocabulary. -/
def unknownCode (s : Finset Int) : Nat := s.card

/-- Modelled from the spec: the apply phase for a categorical column — a total
map from a row's value to its code; values absent from the global statistics
(for instance because the statistics phase capped out) are mapped to the
reserved unknown code rather than failing. -/
def applyCategorical (s : Finset Int) (v : Int) : Nat :=
  if v ∈ s then codeOf s v else unknownCode s

/-- Modelled from the spec: train/val/test split ratios.  They are represented
exactly as integer numerators over a common denominator, so that the ratio
arithmetic of the split assignment is exact. -/
structure SplitRates where
  train : Nat
  val : Nat
  test : Nat
  denom : Nat

/-- Modelled from the spec: the three mask field names of one label, one per
split; a `none` entry means the split has no mask field and is never
assigned (compare the `null` validation entry of the `link_prediction` task in
src/unnamed/part_001). -/
structure MaskFields where
  train : Option String
  val : Option String
  test : Option String

/-- The four possible split outcomes for a label row. -/
inductive Split where
  | train
  | val
  | test
  | none
deriving DecidableEq

/-- Modelled from the spec: a deterministic hash of a row's stable global row
index (the concrete hash of the engine is not in the visible sources; any
fixed function of the index gives the determinism the spec requires). -/
def hashIndex (idx : Nat) : Nat :=
  (idx * 2654435761 + 104729) % 4294967296

/-- Modelled from the spec: the raw split outcome of a row — the hash of its
stable global row index reduced modulo the ratio denominator and compared
against the cumulative train/val/test thresholds. -/
def rawSplit (r : SplitRates) (idx : Nat) : Split :=
  let b := hashIndex idx % r.denom
  if b < r.train then Split.train
  else if b < r.train + r.val then Split.val
  else if b < r.train + r.val + r.test then Split.test
  else Split.none

/-- Modelled from the spec: the final split assignment of a label row — the
raw hashed outcome, demoted to `none` when the label declares no mask field
for that split. -/
def assignSplit (m : MaskFields) (r : SplitRates) (idx : Nat) : Split :=
  match rawSplit r idx with
  | Split.train => if m.train.isSome then Split.train else Split.none
  | Split.val => if m.val.isSome then Split.val else Split.none
  | Split.test => if m.test.isSome then Split.test else Split.none
  | Split.none => Split.none

/-- The `link_prediction` task's mask fields in the multi-task training
configuration src/unnamed/part_001 (lines 90-93): the `null` validation entry
means there is no validation mask. -/
def lpMaskFields : MaskFields :=
  { train := some "train_mask_field_lp", val := Option.none, test := some "test_mask_field_lp" }

/-- Modelled from the spec: the input of one engine run — the rows of one
column distributed over workers, each row carrying its stable global row index
and its column value.  Different runs may use different worker counts and a
different sharding of the same rows. -/
structure EngineInput where
  shards : List (List (Nat × Int))

/-- All rows of an engine input, across all shards. -/
def inputRows (e : EngineInput) : List (Nat × Int) := e.shards.flatten

/-- Modelled from the spec: the statistics phase of a run — each worker's
local distinct-value aggregate over its shard, combined by the pairwise
reduction into the global categorical statistics. -/
def runStatistics (e : EngineInput) : Finset Int :=
  (e.shards.map (fun s => localDistinct (s.map Prod.snd))).foldr combineDistinct ∅

/-- Modelled from the spec: the apply-phase output of a run for one row — the
categorical code of the row's value under the broadcast global statistics,
and the split assignment derived from the row's stable global index. -/
def engineRowOutput (e : EngineInput) (m : MaskFields) (r : SplitRates)
    (row : Nat × Int) : Nat × Split :=
  (applyCategorical (runStatistics e) row.2, assignSplit m r row.1)

/-- Modelled from the spec: a raw label descriptor of the configuration
document — source column, task kind, and the train/val/test split rates
(compare the `labels` entries with `split_rate` in
src/tests/end2end-tests/data_gen/movielens_gsp.json). -/
structure RawLabel where
  column : String
  taskKind : String
  trainRate : Rat
  valRate : Rat
  testRate : Rat
deriving DecidableEq

/-- Modelled from the spec: a raw feature descriptor — source column and the
name of its transformation (compare the `features` entries with
`transformation.name` in movielens_gsp.json). -/
structure RawFeature where
  column : String
  transformName : String
deriving DecidableEq

/-- Modelled from the spec: a raw node type declaration of the configuration
document. -/
structure RawNode where
  typeName : String
  idColumn : String
  features : List RawFeature
  labels : List RawLabel
deriving DecidableEq

/-- Modelled from the spec: a raw edge type declaration — endpoint node type
references, the relation name, and the edge's feature and label descriptors. -/
structure RawEdge where
  sourceType : String
  relation : String
  destType : String
  features : List RawFeature
  labels : List RawLabel
deriving DecidableEq

/-- Modelled from the spec: the whole raw configuration document. -/
structure RawConfig where
  nodes : List RawNode
  edges : List RawEdge

/-- Modelled from the spec: the config compiler's error kind for a bad or
inconsistent declarative configuration. -/
inductive ConfigError where
  | undeclaredType
  | badSplitRates
  | unknownTransformation
  | duplicateTypeName
deriving DecidableEq

/-- Modelled from the spec: the compiled schema — the validated node and edge
type declarations, built once and immutable thereafter. -/
structure GraphSchema where
  nodeTypes : List RawNode
  edgeTypes : List RawEdge
deriving DecidableEq

/-- Modelled from the spec: the transformation kinds the engine recognizes —
identity/passthrough, numerical normalization, categorical, multi-categorical,
bucketized numerical, and huggingface text embedding extraction (`huggingface`
is the name used by movielens_gsp.json). -/
def recognizedTransformations : List String :=
  ["no-op", "numerical", "categorical", "multi-categorical", "bucket-numerical", "huggingface"]

/-- Modelled from the spec: the tolerance for split rates summing to one. -/
def rateEpsilon : Rat := 1 / 1000

/-- A label's split rates sum to 1 within the tolerance. -/
def labelRatesOk (l : RawLabel) : Prop :=
  |l.trainRate + l.valRate + l.testRate - 1| ≤ rateEpsilon

instance : DecidablePred labelRatesOk := fun _ =>
  inferInstanceAs (Decidable (_ ≤ _))

/-- The declared node type names of a configuration. -/
def declaredNodeNames (cfg : RawConfig) : List String :=
  cfg.nodes.map RawNode.typeName

/-- The identifying (source, relation, dest) name of an edge type. -/
def edgeTypeName (e : RawEdge) : String :=
  e.sourceType ++ ":" ++ e.relation ++ ":" ++ e.destType

/-- All feature descriptors of a configuration, across node and edge types. -/
def cfgFeatures (cfg : RawConfig) : List RawFeature :=
  (cfg.nodes.map RawNode.features).flatten ++ (cfg.edges.map RawEdge.features).flatten

/-- All label descriptors of a configuration, across node and edge types. -/
def cfgLabels (cfg : RawConfig) : List RawLabel :=
  (cfg.nodes.map RawNode.labels).flatten ++ (cfg.edges.map RawEdge.labels).flatten

/-- Modelled from the spec: referential-integrity scan — every edge endpoint
type must be a declared node type. -/
def edgeEndpointsDeclared (cfg : RawConfig) : Bool :=
  cfg.edges.all fun e =>
    (declaredNodeNames cfg).contains e.sourceType &&
      (declaredNodeNames cfg).contains e.destType

/-- Modelled from the spec: scan checking every declared transformation kind is
recognized. -/
def allTransformsRecognized (cfg : RawConfig) : Bool :=
  (cfgFeatures cfg).all fun f => recognizedTransformations.contains f.transformName

/-- Modelled from the spec: scan checking every label's split rates sum to 1
within the tolerance. -/
def allRatesValid (cfg : RawConfig) : Bool :=
  (cfgLabels cfg).all fun l => decide (labelRatesOk l)

/-- Modelled from the spec: the config compiler (its implementation is not in
the visible sources).  A pure function of the configuration document: validates
type-name uniqueness, referential integrity, transformation kinds and split
rates, and returns the compiled schema; performs no I/O. -/
def compile (cfg : RawConfig) : Except ConfigError GraphSchema :=
  if ¬ (declaredNodeNames cfg ++ cfg.edges.map edgeTypeName).Nodup then
    Except.error ConfigError.duplicateTypeName
  else if ¬ edgeEndpointsDeclared cfg then
    Except.error ConfigError.undeclaredType
  else if ¬ allTransformsRecognized cfg then
    Except.error ConfigError.unknownTransformation
  else if ¬ allRatesValid cfg then
    Except.error ConfigError.badSplitRates
  else
    Except.ok { nodeTypes := cfg.nodes, edgeTypes := cfg.edges }

/-- The configuration contains a reference to an undeclared node type. -/
def hasUndeclaredReference (cfg : RawConfig) : Prop :=
  ∃ e ∈ cfg.edges,
    e.sourceType ∉ declaredNodeNames cfg ∨ e.destType ∉ declaredNodeNames cfg

/-- The configuration declares an unrecognized transformation kind. -/
def hasUnknownTransformation (cfg : RawConfig) : Prop :=
  ∃ f ∈ cfgFeatures cfg, f.transformName ∉ recognizedTransformations

/-- Some label's split rates do not sum to 1 within the tolerance. -/
def hasBadSplitRates (cfg : RawConfig) : Prop :=
  ∃ l ∈ cfgLabels cfg, ¬ labelRatesOk l

/-- The configuration declares duplicate node or edge type names. -/
def hasDuplicateTypeNames (cfg : RawConfig) : Prop :=
  ¬ (declaredNodeNames cfg ++ cfg.edges.map edgeTypeName).Nodup

/-- A multi-task training configuration entry: the task kind and its declared
mask field names in train/val/test order, a `none` entry meaning the split has
no mask.  Translated from the multi-task YAML configurations
src/unnamed/part_000 and src/unnamed/part_001. -/
structure TaskSpec where
  kind : String
  maskFields : List (Option String)

/-- Modelled from the spec: split membership of a row under a task — a mask
field is a boolean column of the constructed graph addressed by its name, and a
task reads the column named by its configuration entry (the training-side mask
lookup is not in the visible sources).  Membership is therefore a property of
the named field, computed once per field name, never recomputed per task. -/
def taskSplitMembership (store : String → Nat → Bool) (t : TaskSpec)
    (s : Nat) (row : Nat) : Bool :=
  match t.maskFields.getD s Option.none with
  | some fieldName => store fieldName row
  | Option.none => false

/-- The first `node_classification` task of src/unnamed/part_001
(lines 31-42). -/
def nodeClassificationC0 : TaskSpec :=
  ⟨"node_classification", [some "train_mask_c0", some "val_mask_c0", some "test_mask_c0"]⟩

/-- The `reconstruct_node_feat` task of src/unnamed/part_001 (lines 97-106),
declared to use the same masks as node classification c0. -/
def reconstructNodeFeatMovie : TaskSpec :=
  ⟨"reconstruct_node_feat", [some "train_mask_c0", some "val_mask_c0", some "test_mask_c0"]⟩

/-- The `link_prediction` task of src/unnamed/part_000 (lines 35-48). -/
def acmLinkPrediction : TaskSpec :=
  ⟨"link_prediction", [some "train_mask", some "val_mask", some "test_mask"]⟩

/-- The `reconstruct_node_feat` task of src/unnamed/part_000 (lines 49-57). -/
def acmReconstructNodeFeat : TaskSpec :=
  ⟨"reconstruct_node_feat", [some "train_mask", some "val_mask", some "test_mask"]⟩

/-- The processing configuration
src/tests/end2end-tests/data_gen/movielens_gsp.json, translated directly: two
node types, one edge type, a huggingface feature transformation, and
0.8/0.1/0.1 split rates on every label. -/
def movielensConfig : RawConfig :=
  { nodes :=
      [ { typeName := "user", idColumn := "id", features := [],
          labels := [⟨"age", "regression", 8/10, 1/10, 1/10⟩] },
        { typeName := "movie", idColumn := "id",
          features := [⟨"title", "huggingface"⟩],
          labels := [⟨"label", "classification", 8/10, 1/10, 1/10⟩] } ],
    edges :=
      [ { sourceType := "user", relation := "rating", destType := "movie",
          features := [],
          labels := [⟨"rate", "classification", 8/10, 1/10, 1/10⟩] } ] }

/-! ## Theorems -/

lemma partRowCount_le (R K i : Nat) : partRowCount R K i ≤ R / K + 1 := by
  unfold partRowCount
  split <;> omega

lemma le_partRowCount (R K i : Nat) : R / K ≤ partRowCount R K i := by
  unfold partRowCount
  split <;> omega

lemma sum_range_map_aux (q : Nat) :
    ∀ K m, m ≤ K →
      ((List.range K).map (fun i => q + if i < m then 1 else 0)).sum = K * q + m := by
  intro K
  induction K with
  | zero =>
    intro m h
    interval_cases m
    simp
  | succ n ih =>
    intro m h
    rw [List.range_succ, List.map_append, List.sum_append]
    rcases Nat.lt_or_ge m (n + 1) with hm | hm
    · have hmn : m ≤ n := Nat.lt_succ_iff.mp hm
      rw [ih m hmn]
      have : ¬ n < m := Nat.not_lt.mpr hmn
      simp only [List.map_cons, List.map_nil, List.sum_cons, List.sum_nil, this, if_false]
      ring
    · have hm1 : m = n + 1 := Nat.le_antisymm h hm
      subst hm1
      have hcong :
          (List.range n).map (fun i => q + if i < n + 1 then 1 else 0) =
            (List.range n).map (fun i => q + if i < n then 1 else 0) := by
        apply List.map_congr_left
        intro i hi
        have hi1 : i < n := List.mem_range.mp hi
        have h2 : i < n + 1 := Nat.lt_succ_of_lt hi1
        simp [hi1, h2]
      rw [hcong, ih n (Nat.le_refl n)]
      have : n < n + 1 := Nat.lt_succ_self n
      simp only [List.map_cons, List.map_nil, List.sum_cons, List.sum_nil, this, if_true]
      ring

/-- The sum of the row-counts of a partition layout equals the global row
count: no row is lost or duplicated by the layout. -/
lemma partitionLayout_sum (R K : Nat) (hK : 0 < K) :
    (partitionLayout R K).sum = R := by
  unfold partitionLayout partRowCount
  have hm : R % K ≤ K := Nat.le_of_lt (Nat.mod_lt R hK)
  rw [sum_range_map_aux (R / K) K (R % K) hm]
  have := Nat.div_add_mod R K
  omega

lemma partitionLayout_length (R K : Nat) : (partitionLayout R K).length = K := by
  simp [partitionLayout]

lemma splitByLayout_length {α : Type} (layout : List Nat) (rows : List α) :
    (splitByLayout layout rows).length = layout.length := by
  induction layout generalizing rows with
  | nil => simp [splitByLayout]
  | cons n rest ih => simp [splitByLayout, ih]

lemma splitByLayout_flatten {α : Type} (layout : List Nat) (rows : List α)
    (h : rows.length ≤ layout.sum) :
    (splitByLayout layout rows).flatten = rows := by
  induction layout generalizing rows with
  | nil =>
    simp only [List.sum_nil, Nat.le_zero] at h
    simp [splitByLayout, List.eq_nil_of_length_eq_zero h]
  | cons n rest ih =>
    simp only [splitByLayout, List.flatten_cons]
    rw [ih (rows.drop n)]
    · exact List.take_append_drop n rows
    · simp only [List.length_drop]
      simp only [List.sum_cons] at h
      omega

lemma splitByLayout_lengths {α : Type} (layout : List Nat) (rows : List α)
    (h : layout.sum ≤ rows.length) :
    (splitByLayout layout rows).map List.length = layout := by
  induction layout generalizing rows with
  | nil => simp [splitByLayout]
  | cons n rest ih =>
    simp only [List.sum_cons] at h
    simp only [splitByLayout, List.map_cons]
    have h1 : (List.take n rows).length = n := by
      rw [List.length_take]
      omega
    have h2 : (splitByLayout rest (rows.drop n)).map List.length = rest := by
      apply ih
      simp only [List.length_drop]
      omega
    rw [h1, h2]

lemma repartition_map_length {α : Type} (K : Nat) (rows : List α) (hK : 0 < K) :
    (repartition K rows).map List.length = partitionLayout rows.length K := by
  apply splitByLayout_lengths
  exact Nat.le_of_eq (partitionLayout_sum rows.length K hK)

lemma mem_partitionLayout_bounds {R K p : Nat} (hp : p ∈ partitionLayout R K) :
    R / K ≤ p ∧ p ≤ R / K + 1 := by
  unfold partitionLayout at hp
  obtain ⟨i, _, hpi⟩ := List.mem_map.mp hp
  subst hpi
  exact ⟨le_partRowCount R K i, partRowCount_le R K i⟩

lemma repartitionType_mismatch (K : Nat) (tf : TypeFiles)
    (f g : List Int) (hf : f ∈ tf.files) (hg : g ∈ tf.files)
    (hne : f.length ≠ g.length) :
    repartitionType K tf = Except.error RepartitionError.alignmentError := by
  unfold repartitionType
  cases hfs : tf.files with
  | nil =>
    rw [hfs] at hf
    cases hf
  | cons f₀ rest =>
    rw [hfs] at hf hg
    by_cases hall : rest.all (fun g => g.length == f₀.length) = true
    · exfalso
      have hlen : ∀ x, x ∈ f₀ :: rest → x.length = f₀.length := by
        intro x hx
        rcases List.mem_cons.mp hx with hx0 | hxr
        · rw [hx0]
        · have hb := List.all_eq_true.mp hall x hxr
          exact beq_iff_eq.mp hb
      exact hne ((hlen f hf).trans (hlen g hg).symm)
    · simp [hall]

lemma reduceDistinct_eq_flatten (t : RTree (List Int)) :
    reduceDistinct t = t.leaves.flatten.toFinset := by
  induction t with
  | leaf a => simp [reduceDistinct, RTree.reduce, RTree.leaves, localDistinct]
  | node l r ihl ihr =>
    simp only [reduceDistinct, RTree.reduce, RTree.leaves, combineDistinct] at *
    rw [ihl, ihr, List.flatten_append, List.toFinset_append]

lemma vocabOf_sorted_lt (s : Finset Int) : (vocabOf s).Sorted (· < ·) :=
  Finset.sort_sorted_lt s

lemma vocabOf_length (s : Finset Int) : (vocabOf s).length = s.card :=
  Finset.length_sort _

lemma vocabOf_nodup (s : Finset Int) : (vocabOf s).Nodup :=
  Finset.sort_nodup _ s

/-- The statistics phase assigns the dense codes `0..N-1` to the sorted
vocabulary: mapping each vocabulary entry to its code enumerates exactly
`0, 1, ..., N-1` in order. -/
lemma codes_dense (s : Finset Int) :
    (vocabOf s).map (codeOf s) = List.range s.card := by
  apply List.ext_getElem
  · simp [vocabOf_length]
  · intro i h₁ h₂
    simp only [List.getElem_map, List.getElem_range]
    unfold codeOf
    apply List.indexOf_getElem (vocabOf_nodup s)

lemma combineMinMax_none_right (a : Option (Int × Int)) : combineMinMax a none = a := by
  cases a <;> rfl

lemma combineMinMax_none_left (b : Option (Int × Int)) : combineMinMax none b = b := by
  cases b <;> rfl

lemma combineMinMax_assoc (a b c : Option (Int × Int)) :
    combineMinMax (combineMinMax a b) c = combineMinMax a (combineMinMax b c) := by
  cases a with
  | none => rw [combineMinMax_none_left, combineMinMax_none_left]
  | some pa =>
    cases b with
    | none => rw [combineMinMax_none_right, combineMinMax_none_left]
    | some pb =>
      cases c with
      | none => rw [combineMinMax_none_right, combineMinMax_none_right]
      | some pc =>
        obtain ⟨la, ha⟩ := pa
        obtain ⟨lb, hb⟩ := pb
        obtain ⟨lc, hc⟩ := pc
        simp [combineMinMax, min_assoc, max_assoc]

lemma combineMinMax_comm (a b : Option (Int × Int)) :
    combineMinMax a b = combineMinMax b a := by
  cases a with
  | none => cases b <;> rfl
  | some pa =>
    cases b with
    | none => rfl
    | some pb =>
      obtain ⟨la, ha⟩ := pa
      obtain ⟨lb, hb⟩ := pb
      simp [combineMinMax, min_comm, max_comm]

lemma scanMinMax_append (xs ys : List Int) :
    scanMinMax (xs ++ ys) = combineMinMax (scanMinMax xs) (scanMinMax ys) := by
  induction xs with
  | nil => simp [scanMinMax, combineMinMax]
  | cons x xs ih =>
    simp only [scanMinMax, List.foldr_cons, List.cons_append] at *
    rw [ih, combineMinMax_assoc]

/-- Folding a commutative, associative combine over a list is invariant under
permutation of the list. -/
lemma foldr_perm_of_comm_assoc {α : Type} (f : α → α → α)
    (hc : ∀ a b, f a b = f b a)
    (ha : ∀ a b c, f (f a b) c = f a (f b c))
    (e : α) {l₁ l₂ : List α} (h : l₁.Perm l₂) :
    l₁.foldr f e = l₂.foldr f e := by
  induction h with
  | nil => rfl
  | cons x _ ih => simp only [List.foldr_cons, ih]
  | swap x y l =>
    simp only [List.foldr_cons]
    rw [← ha, hc y x, ha]
  | trans _ _ ih₁ ih₂ => rw [ih₁, ih₂]

lemma scanMinMax_perm {l₁ l₂ : List Int} (h : l₁.Perm l₂) :
    scanMinMax l₁ = scanMinMax l₂ := by
  unfold scanMinMax
  have hmap : (l₁.map (fun x => some ((x, x) : Int × Int))).Perm
      (l₂.map (fun x => some ((x, x) : Int × Int))) := h.map _
  have h₁ : ∀ l : List Int,
      l.foldr (fun x acc => combineMinMax (some (x, x)) acc) none =
        (l.map (fun x => some ((x, x) : Int × Int))).foldr combineMinMax none := by
    intro l
    induction l with
    | nil => rfl
    | cons x xs ih => simp only [List.foldr_cons, List.map_cons, ih]
  rw [h₁ l₁, h₁ l₂]
  exact foldr_perm_of_comm_assoc combineMinMax combineMinMax_comm combineMinMax_assoc none hmap

lemma reduceMinMax_eq_flatten (t : RTree (List Int)) :
    reduceMinMax t = scanMinMax t.leaves.flatten := by
  induction t with
  | leaf a => simp [reduceMinMax, RTree.reduce, RTree.leaves]
  | node l r ihl ihr =>
    simp only [reduceMinMax, RTree.reduce, RTree.leaves] at *
    rw [ihl, ihr, List.flatten_append, scanMinMax_append]

lemma codeOf_lt_card (s : Finset Int) (v : Int) (hv : v ∈ s) :
    codeOf s v < s.card := by
  unfold codeOf
  rw [← vocabOf_length s]
  apply List.indexOf_lt_length.mpr
  unfold vocabOf
  exact (Finset.mem_sort _).mpr hv

lemma runStatistics_eq_global (e : EngineInput) :
    runStatistics e = ((inputRows e).map Prod.snd).toFinset := by
  unfold runStatistics inputRows
  induction e.shards with
  | nil => simp
  | cons s rest ih =>
    simp only [List.map_cons, List.foldr_cons, combineDistinct]
    rw [ih]
    simp [localDistinct, List.flatten_cons, List.map_append, List.toFinset_append]

lemma scanMinMax_cons (x : Int) (xs : List Int) :
    scanMinMax (x :: xs) = combineMinMax (some (x, x)) (scanMinMax xs) := rfl

lemma scanMinMax_cons_some (x : Int) (xs : List Int) :
    ∃ p, scanMinMax (x :: xs) = some p := by
  rw [scanMinMax_cons]
  cases hs : scanMinMax xs with
  | none => exact ⟨(x, x), by rw [combineMinMax_none_right]⟩
  | some q =>
    obtain ⟨ql, qh⟩ := q
    exact ⟨(min x ql, max x qh), rfl⟩

/-- The sequential min/max scan computes the true dataset minimum and maximum:
both bounds are attained by some row, and they bound every row. -/
lemma scanMinMax_spec (xs : List Int) (p : Int × Int) (hp : scanMinMax xs = some p) :
    p.1 ∈ xs ∧ p.2 ∈ xs ∧ ∀ x ∈ xs, p.1 ≤ x ∧ x ≤ p.2 := by
  induction xs generalizing p with
  | nil => simp [scanMinMax] at hp
  | cons x xs ih =>
    rw [scanMinMax_cons] at hp
    cases hs : scanMinMax xs with
    | none =>
      rw [hs, combineMinMax_none_right] at hp
      have hxs : xs = [] := by
        cases xs with
        | nil => rfl
        | cons y ys =>
          obtain ⟨q, hq⟩ := scanMinMax_cons_some y ys
          rw [hq] at hs
          cases hs
      subst hxs
      have hpx : p = (x, x) := by
        injection hp with h
        exact h.symm
      subst hpx
      refine ⟨List.mem_singleton.mpr rfl, List.mem_singleton.mpr rfl, ?_⟩
      intro y hy
      rw [List.mem_singleton] at hy
      subst hy
      exact ⟨le_refl _, le_refl _⟩
    | some q =>
      rw [hs] at hp
      obtain ⟨ql, qh⟩ := q
      have hpq : p = (min x ql, max x qh) := by
        have : combineMinMax (some (x, x)) (some (ql, qh)) = some (min x ql, max x qh) := rfl
        rw [this] at hp
        injection hp with h
        exact h.symm
      obtain ⟨hql, hqh, hbounds⟩ := ih (ql, qh) hs
      subst hpq
      refine ⟨?_, ?_, ?_⟩
      · rcases le_total x ql with hle | hle
        · rw [min_eq_left hle]
          exact List.mem_cons_self x xs
        · rw [min_eq_right hle]
          exact List.mem_cons_of_mem x hql
      · rcases le_total qh x with hle | hle
        · rw [max_eq_left hle]
          exact List.mem_cons_self x xs
        · rw [max_eq_right hle]
          exact List.mem_cons_of_mem x hqh
      · intro y hy
        rcases List.mem_cons.mp hy with hyx | hyxs
        · subst hyx
          exact ⟨min_le_left _ _, le_max_left _ _⟩
        · obtain ⟨h₁, h₂⟩ := hbounds y hyxs
          exact ⟨le_trans (min_le_right _ _) h₁, le_trans h₂ (le_max_right _ _)⟩

lemma edgeEndpointsDeclared_iff (cfg : RawConfig) :
    edgeEndpointsDeclared cfg = true ↔ ¬ hasUndeclaredReference cfg := by
  unfold edgeEndpointsDeclared hasUndeclaredReference
  rw [List.all_eq_true]
  push_neg
  constructor
  · intro h e he
    have := h e he
    simp only [Bool.and_eq_true, List.elem_iff] at this
    exact ⟨this.1, this.2⟩
  · intro h e he
    obtain ⟨h1, h2⟩ := h e he
    simp only [Bool.and_eq_true, List.elem_iff]
    exact ⟨h1, h2⟩

lemma allTransformsRecognized_iff (cfg : RawConfig) :
    allTransformsRecognized cfg = true ↔ ¬ hasUnknownTransformation cfg := by
  unfold allTransformsRecognized hasUnknownTransformation
  rw [List.all_eq_true]
  push_neg
  constructor
  · intro h f hf
    have := h f hf
    rwa [List.elem_iff] at this
  · intro h f hf
    rw [List.elem_iff]
    exact h f hf

lemma allRatesValid_iff (cfg : RawConfig) :
    allRatesValid cfg = true ↔ ¬ hasBadSplitRates cfg := by
  unfold allRatesValid hasBadSplitRates
  rw [List.all_eq_true]
  push_neg
  constructor
  · intro h l hl
    have := h l hl
    rwa [decide_eq_true_eq] at this
  · intro h l hl
    rw [decide_eq_true_eq]
    exact h l hl

lemma assignSplit_of_train_absent (m : MaskFields) (hm : m.train = Option.none)
    (r : SplitRates) (idx : Nat) : assignSplit m r idx ≠ Split.train := by
  unfold assignSplit
  cases hraw : rawSplit r idx <;> simp [hm] <;> split_ifs <;> simp

lemma assignSplit_of_val_absent (m : MaskFields) (hm : m.val = Option.none)
    (r : SplitRates) (idx : Nat) : assignSplit m r idx ≠ Split.val := by
  unfold assignSplit
  cases hraw : rawSplit r idx <;> simp [hm] <;> split_ifs <;> simp

lemma assignSplit_of_test_absent (m : MaskFields) (hm : m.test = Option.none)
    (r : SplitRates) (idx : Nat) : assignSplit m r idx ≠ Split.test := by
  unfold assignSplit
  cases hraw : rawSplit r idx <;> simp [hm] <;> split_ifs <;> simp

lemma assignSplit_hash_congr (m : MaskFields) (r : SplitRates) {j idx : Nat}
    (hj : hashIndex j = hashIndex idx) :
    assignSplit m r j = assignSplit m r idx := by
  have hraw : rawSplit r j = rawSplit r idx := by
    unfold rawSplit
    rw [hj]
  unfold assignSplit
  rw [hraw]

/-- C1: for every node or edge type, all files belonging to that type
(features, labels, generated embeddings) that have equal global row count and
are repartitioned to the same target partition count receive identical
partition layouts — partition `i` of every such file holds the same number of
rows, for every `i` — and the per-type partition row counts sum to the type's
global row count. -/
theorem claim1_cross_file_partition_alignment {α β : Type} (K : Nat) (hK : 0 < K)
    (file₁ : List α) (file₂ : List β) (h : file₁.length = file₂.length) :
    (repartition K file₁).map List.length = (repartition K file₂).map List.length ∧
    ((repartition K file₁).map List.length).sum = file₁.length := by
  constructor
  · rw [repartition_map_length K file₁ hK, repartition_map_length K file₂ hK, h]
  · rw [repartition_map_length K file₁ hK]
    exact partitionLayout_sum file₁.length K hK

/-- Witness for C1: a five-row feature file and a five-row label file
repartitioned to three partitions get identical layouts summing to five. -/
theorem claim1_witness :
    0 < 3 ∧ ([10, 20, 30, 40, 50] : List Int).length = (["a", "b", "c", "d", "e"] : List String).length ∧
      ((repartition 3 ([10, 20, 30, 40, 50] : List Int)).map List.length =
          (repartition 3 (["a", "b", "c", "d", "e"] : List String)).map List.length ∧
        ((repartition 3 ([10, 20, 30, 40, 50] : List Int)).map List.length).sum =
          ([10, 20, 30, 40, 50] : List Int).length) :=
  ⟨by decide, by decide,
    claim1_cross_file_partition_alignment 3 (by decide) _ _ (by decide)⟩

/-- C2: running the transformation engine twice on identical input, even with a
different worker count or a different sharding of the rows across workers,
yields identical categorical code assignments and identical per-row split-mask
assignments in both runs. -/
theorem claim2_engine_determinism (e₁ e₂ : EngineInput) (m : MaskFields)
    (r : SplitRates) (h : (inputRows e₁).Perm (inputRows e₂)) (row : Nat × Int) :
    engineRowOutput e₁ m r row = engineRowOutput e₂ m r row := by
  unfold engineRowOutput
  have hstat : runStatistics e₁ = runStatistics e₂ := by
    rw [runStatistics_eq_global, runStatistics_eq_global]
    exact List.toFinset_eq_of_perm _ _ (h.map Prod.snd)
  rw [hstat]

/-- Witness for C2: two shardings of the same three rows — two workers versus
one worker — give the same per-row output. -/
theorem claim2_witness :
    (inputRows ⟨[[(0, 5), (1, 7)], [(2, 5)]]⟩).Perm (inputRows ⟨[[(2, 5), (0, 5), (1, 7)]]⟩) ∧
      engineRowOutput ⟨[[(0, 5), (1, 7)], [(2, 5)]]⟩
          ⟨some "train_mask", some "val_mask", some "test_mask"⟩ ⟨8, 1, 1, 10⟩ (0, 5) =
        engineRowOutput ⟨[[(2, 5), (0, 5), (1, 7)]]⟩
          ⟨some "train_mask", some "val_mask", some "test_mask"⟩ ⟨8, 1, 1, 10⟩ (0, 5) :=
  ⟨by decide, claim2_engine_determinism _ _ _ _ (by decide) _⟩

/-- C3: the statistics phase assigns dense integer codes `0..N-1` to the `N`
global distinct values in sorted order, and the resulting code assignment is
the same for every shape of the pairwise reduction tree combining the workers'
partial aggregates: the reduced statistics only depend on the global distinct
set. -/
theorem claim3_categorical_reduction_independent (t₁ t₂ : RTree (List Int))
    (h : (t₁.leaves.flatten).Perm (t₂.leaves.flatten)) :
    reduceDistinct t₁ = reduceDistinct t₂ ∧
    reduceDistinct t₁ = t₁.leaves.flatten.toFinset ∧
    (vocabOf (reduceDistinct t₁)).Sorted (· < ·) ∧
    (vocabOf (reduceDistinct t₁)).map (codeOf (reduceDistinct t₁)) =
      List.range (reduceDistinct t₁).card := by
  have h₁ := reduceDistinct_eq_flatten t₁
  have h₂ := reduceDistinct_eq_flatten t₂
  refine ⟨?_, h₁, vocabOf_sorted_lt _, codes_dense _⟩
  rw [h₁, h₂]
  exact List.toFinset_eq_of_perm _ _ h

/-- Witness for C3: a left-leaning and a right-leaning reduction tree over a
re-sharding of the same rows produce the same categorical statistics. -/
theorem claim3_witness :
    ((RTree.node (RTree.node (RTree.leaf [3, 1]) (RTree.leaf [1, 2])) (RTree.leaf [7])).leaves.flatten).Perm
        ((RTree.node (RTree.leaf [1, 2, 1]) (RTree.node (RTree.leaf [7]) (RTree.leaf [3]))).leaves.flatten) ∧
      reduceDistinct (RTree.node (RTree.node (RTree.leaf [3, 1]) (RTree.leaf [1, 2])) (RTree.leaf [7])) =
        reduceDistinct (RTree.node (RTree.leaf [1, 2, 1]) (RTree.node (RTree.leaf [7]) (RTree.leaf [3]))) :=
  ⟨by decide,
    (claim3_categorical_reduction_independent _ _ (by decide)).1⟩

/-- C4: for every type with global row count `R` and every positive target
partition count `K`, repartitioning produces exactly `K` output partitions
whose row counts pairwise differ by at most one, and concatenating the
partitions in partition order reproduces the original global row order
exactly. -/
theorem claim4_repartition_balance_and_order {α : Type} (K : Nat) (rows : List α)
    (hK : 0 < K) :
    (repartition K rows).length = K ∧
    (∀ p q, p ∈ (repartition K rows).map List.length →
      q ∈ (repartition K rows).map List.length → p ≤ q + 1) ∧
    (repartition K rows).flatten = rows := by
  refine ⟨?_, ?_, ?_⟩
  · unfold repartition
    rw [splitByLayout_length, partitionLayout_length]
  · intro p q hp hq
    rw [repartition_map_length K rows hK] at hp hq
    obtain ⟨hp1, hp2⟩ := mem_partitionLayout_bounds hp
    obtain ⟨hq1, hq2⟩ := mem_partitionLayout_bounds hq
    omega
  · apply splitByLayout_flatten
    exact Nat.le_of_eq (partitionLayout_sum rows.length K hK).symm

/-- Witness for C4: five rows into two partitions — two partitions, balanced,
and concatenation restores the original order. -/
theorem claim4_witness :
    0 < 2 ∧
      ((repartition 2 ([10, 20, 30, 40, 50] : List Int)).length = 2 ∧
        (∀ p q, p ∈ (repartition 2 ([10, 20, 30, 40, 50] : List Int)).map List.length →
          q ∈ (repartition 2 ([10, 20, 30, 40, 50] : List Int)).map List.length → p ≤ q + 1) ∧
        (repartition 2 ([10, 20, 30, 40, 50] : List Int)).flatten = [10, 20, 30, 40, 50]) :=
  ⟨by decide, claim4_repartition_balance_and_order 2 _ (by decide)⟩

/-- C5: for every numerical column and every partitioning of its rows into
worker shards, the global min/max computed by the statistics phase equals the
true minimum and maximum over the whole dataset — the value a single
sequential scan of all rows computes — and those bounds are attained and bound
every row. -/
theorem claim5_minmax_statistics_correct (t : RTree (List Int)) (xs : List Int)
    (h : (t.leaves.flatten).Perm xs) :
    reduceMinMax t = scanMinMax xs ∧
    ∀ p, reduceMinMax t = some p →
      p.1 ∈ xs ∧ p.2 ∈ xs ∧ ∀ x ∈ xs, p.1 ≤ x ∧ x ≤ p.2 := by
  have h₁ : reduceMinMax t = scanMinMax xs := by
    rw [reduceMinMax_eq_flatten]
    exact scanMinMax_perm h
  refine ⟨h₁, ?_⟩
  intro p hp
  rw [h₁] at hp
  exact scanMinMax_spec xs p hp

/-- Witness for C5: a two-shard reduction over `[5, 1]` and `[9]` computes the
min/max of the sequential scan of `[1, 9, 5]`. -/
theorem claim5_witness :
    ((RTree.node (RTree.leaf [5, 1]) (RTree.leaf [9])).leaves.flatten).Perm ([1, 9, 5] : List Int) ∧
      reduceMinMax (RTree.node (RTree.leaf [5, 1]) (RTree.leaf [9])) = scanMinMax [1, 9, 5] :=
  ⟨by decide,
    (claim5_minmax_statistics_correct _ _ (by decide)).1⟩

/-- C6: every label row is assigned exactly one of the four outcomes train /
val / test / none, computed as a function of the hash of the row's stable
global row index together with the configured split ratios; and a label whose
mask field for some split is null/absent never has a row assigned to that
split — in particular the `link_prediction` label of src/unnamed/part_001,
whose validation mask entry is null, never assigns val. -/
theorem claim6_split_assignment (m : MaskFields) (r : SplitRates) (idx : Nat) :
    (assignSplit m r idx = Split.train ∨ assignSplit m r idx = Split.val ∨
      assignSplit m r idx = Split.test ∨ assignSplit m r idx = Split.none) ∧
    (∀ j, hashIndex j = hashIndex idx → assignSplit m r j = assignSplit m r idx) ∧
    (m.train = Option.none → assignSplit m r idx ≠ Split.train) ∧
    (m.val = Option.none → assignSplit m r idx ≠ Split.val) ∧
    (m.test = Option.none → assignSplit m r idx ≠ Split.test) ∧
    (∀ j, assignSplit lpMaskFields r j ≠ Split.val) := by
  refine ⟨?_, ?_, ?_, ?_, ?_, ?_⟩
  · unfold assignSplit
    cases hraw : rawSplit r idx <;> split_ifs <;> simp
  · intro j hj
    exact assignSplit_hash_congr m r hj
  · intro hm
    exact assignSplit_of_train_absent m hm r idx
  · intro hm
    exact assignSplit_of_val_absent m hm r idx
  · intro hm
    exact assignSplit_of_test_absent m hm r idx
  · intro j
    exact assignSplit_of_val_absent lpMaskFields rfl r j

/-- C7: a row-count mismatch between two files declared to belong to the same
type makes repartitioning fail with `AlignmentError` for that type, publishes
no manifest entry for it, and leaves every other type's repartitioning result
exactly its own independent computation. -/
theorem claim7_alignment_error (K : Nat) (tf : TypeFiles) (f g : List Int)
    (hf : f ∈ tf.files) (hg : g ∈ tf.files) (hne : f.length ≠ g.length)
    (others : List TypeFiles) :
    repartitionType K tf = Except.error RepartitionError.alignmentError ∧
    manifestEntry K tf = Option.none ∧
    repartitionAll K (tf :: others) =
      (tf.typeName, Except.error RepartitionError.alignmentError) ::
        others.map (fun o => (o.typeName, repartitionType K o)) := by
  have herr := repartitionType_mismatch K tf f g hf hg hne
  refine ⟨herr, ?_, ?_⟩
  · unfold manifestEntry
    rw [herr]
  · unfold repartitionAll
    rw [List.map_cons, herr]

/-- Witness for C7: a type with a three-row feature file and a two-row label
file fails with `AlignmentError`, gets no manifest entry, and an unrelated
aligned type still repartitions on its own. -/
theorem claim7_witness :
    ([1, 2, 3] : List Int) ∈ (TypeFiles.mk "movie" [[1, 2, 3], [7, 8]]).files ∧
    ([7, 8] : List Int) ∈ (TypeFiles.mk "movie" [[1, 2, 3], [7, 8]]).files ∧
    ([1, 2, 3] : List Int).length ≠ ([7, 8] : List Int).length ∧
    (repartitionType 2 (TypeFiles.mk "movie" [[1, 2, 3], [7, 8]]) =
        Except.error RepartitionError.alignmentError ∧
      manifestEntry 2 (TypeFiles.mk "movie" [[1, 2, 3], [7, 8]]) = Option.none ∧
      repartitionAll 2 [TypeFiles.mk "movie" [[1, 2, 3], [7, 8]], TypeFiles.mk "user" [[4], [5]]] =
        ("movie", Except.error RepartitionError.alignmentError) ::
          [TypeFiles.mk "user" [[4], [5]]].map
            (fun o => (o.typeName, repartitionType 2 o))) :=
  ⟨by decide, by decide, by decide,
    claim7_alignment_error 2 (TypeFiles.mk "movie" [[1, 2, 3], [7, 8]])
      [1, 2, 3] [7, 8] (by decide) (by decide) (by decide)
      [TypeFiles.mk "user" [[4], [5]]]⟩

/-- C8: any categorical value absent from the global statistics vocabulary is
mapped by the apply phase to the single reserved unknown code — the same code
for every unknown value, distinct from every known value's code — and the
apply phase is a total function, so it never fails on such a value. -/
theorem claim8_unknown_category (s : Finset Int) (v w : Int) (hv : v ∉ s) (hw : w ∉ s) :
    applyCategorical s v = unknownCode s ∧
    applyCategorical s v = applyCategorical s w ∧
    ∀ u ∈ s, applyCategorical s u ≠ unknownCode s := by
  have h₁ : applyCategorical s v = unknownCode s := by
    simp [applyCategorical, hv]
  have h₂ : applyCategorical s w = unknownCode s := by
    simp [applyCategorical, hw]
  refine ⟨h₁, h₁.trans h₂.symm, ?_⟩
  intro u hu
  have hlt := codeOf_lt_card s u hu
  simp only [applyCategorical, hu, if_true, unknownCode]
  omega

/-- Witness for C8: with vocabulary `{1, 3}`, the unseen values `5` and `7`
both get the reserved unknown code, and the known value `1` does not. -/
theorem claim8_witness :
    (5 : Int) ∉ ({1, 3} : Finset Int) ∧ (7 : Int) ∉ ({1, 3} : Finset Int) ∧
      (applyCategorical {1, 3} 5 = unknownCode {1, 3} ∧
        applyCategorical {1, 3} 5 = applyCategorical {1, 3} 7 ∧
        ∀ u ∈ ({1, 3} : Finset Int), applyCategorical {1, 3} u ≠ unknownCode {1, 3}) :=
  ⟨by decide, by decide, claim8_unknown_category _ _ _ (by decide) (by decide)⟩

/-- C9: `compile` returns a `GraphSchema` and fails with a `ConfigError`
exactly when the raw configuration contains a reference to an undeclared node
type, split ratios that do not sum to 1 within the tolerance, an unrecognized
transformation kind, or duplicate node/edge type names; as a pure function of
the document it performs no other I/O. -/
theorem claim9_compile_fails_iff (cfg : RawConfig) :
    (∃ err, compile cfg = Except.error err) ↔
      hasUndeclaredReference cfg ∨ hasBadSplitRates cfg ∨
        hasUnknownTransformation cfg ∨ hasDuplicateTypeNames cfg := by
  by_cases h₁ : (declaredNodeNames cfg ++ cfg.edges.map edgeTypeName).Nodup
  · by_cases h₂ : edgeEndpointsDeclared cfg = true
    · by_cases h₃ : allTransformsRecognized cfg = true
      · by_cases h₄ : allRatesValid cfg = true
        · have hd : ¬ hasDuplicateTypeNames cfg := not_not.mpr h₁
          have hu := (edgeEndpointsDeclared_iff cfg).mp h₂
          have ht := (allTransformsRecognized_iff cfg).mp h₃
          have hr := (allRatesValid_iff cfg).mp h₄
          simp only [compile, h₁, h₂, h₃, h₄, not_true, if_false, not_false_iff, if_true]
          constructor
          · rintro ⟨err, herr⟩
            cases herr
          · rintro (hc | hc | hc | hc)
            · exact absurd hc hu
            · exact absurd hc hr
            · exact absurd hc ht
            · exact absurd hc hd
        · have hr : hasBadSplitRates cfg := not_not.mp (mt (allRatesValid_iff cfg).mpr h₄)
          simp only [compile, h₁, h₂, h₃, h₄, not_true, if_false, not_false_iff, if_true]
          constructor
          · intro _
            exact Or.inr (Or.inl hr)
          · intro _
            exact ⟨ConfigError.badSplitRates, rfl⟩
      · have ht : hasUnknownTransformation cfg := not_not.mp (mt (allTransformsRecognized_iff cfg).mpr h₃)
        simp only [compile, h₁, h₂, h₃, not_true, if_false, not_false_iff, if_true]
        constructor
        · intro _
          exact Or.inr (Or.inr (Or.inl ht))
        · intro _
          exact ⟨ConfigError.unknownTransformation, rfl⟩
    · have hu : hasUndeclaredReference cfg := not_not.mp (mt (edgeEndpointsDeclared_iff cfg).mpr h₂)
      simp only [compile, h₁, h₂, not_true, if_false, not_false_iff, if_true]
      constructor
      · intro _
        exact Or.inl hu
      · intro _
        exact ⟨ConfigError.undeclaredType, rfl⟩
  · have hd : hasDuplicateTypeNames cfg := h₁
    simp only [compile, h₁, not_false_iff, if_true]
    constructor
    · intro _
      exact Or.inr (Or.inr (Or.inr hd))
    · intro _
      exact ⟨ConfigError.duplicateTypeName, rfl⟩

/-- C10: two tasks of a multi-task configuration that declare the same mask
field names have identical split membership for every row — membership is a
property of the named mask field, computed once per field, not per task — and
in src/unnamed/part_001 the `reconstruct_node_feat` task indeed declares the
same mask fields as the `node_classification` c0 task, as does the ACM pair in
src/unnamed/part_000. -/
theorem claim10_shared_mask_fields (store : String → Nat → Bool)
    (t₁ t₂ : TaskSpec) (h : t₁.maskFields = t₂.maskFields) :
    (∀ s row, taskSplitMembership store t₁ s row = taskSplitMembership store t₂ s row) ∧
    reconstructNodeFeatMovie.maskFields = nodeClassificationC0.maskFields ∧
    acmReconstructNodeFeat.maskFields = acmLinkPrediction.maskFields := by
  refine ⟨?_, rfl, rfl⟩
  intro s row
  unfold taskSplitMembership
  rw [h]

/-- Witness for C10: instantiated at the `reconstruct_node_feat` and
`node_classification` c0 tasks of src/unnamed/part_001 with a concrete mask
store and row. -/
theorem claim10_witness :
    reconstructNodeFeatMovie.maskFields = nodeClassificationC0.maskFields ∧
      taskSplitMembership (fun f row => f.length + row % 2 == 13) reconstructNodeFeatMovie 0 5 =
        taskSplitMembership (fun f row => f.length + row % 2 == 13) nodeClassificationC0 0 5 :=
  ⟨by decide,
    (claim10_shared_mask_fields (fun f row => f.length + row % 2 == 13)
        reconstructNodeFeatMovie nodeClassificationC0 (by decide)).1 0 5⟩

/-- Witness for C6: a concrete label with no test mask field, evaluated at row
index 4, is not assigned to test. -/
theorem claim6_witness :
    assignSplit ⟨some "train_mask", some "val_mask", Option.none⟩ ⟨8, 1, 1, 10⟩ 4 ≠ Split.test :=
  (claim6_split_assignment ⟨some "train_mask", some "val_mask", Option.none⟩
      ⟨8, 1, 1, 10⟩ 4).2.2.2.2.1 rfl

/-- Witness for C9: the failure characterization instantiated at the embedded
movielens processing configuration. -/
theorem claim9_witness :
    (∃ err, compile movielensConfig = Except.error err) ↔
      hasUndeclaredReference movielensConfig ∨ hasBadSplitRates movielensConfig ∨
        hasUnknownTransformation movielensConfig ∨ hasDuplicateTypeNames movielensConfig :=
  claim9_compile_fails_iff movielensConfig

/-- The movielens configuration of the repository's test data is well formed:
it compiles to a schema without error. -/
lemma movielens_compiles :
    compile movielensConfig =
      Except.ok { nodeTypes := movielensConfig.nodes, edgeTypes := movielensConfig.edges } := by
  have h₁ : (declaredNodeNames movielensConfig ++
      movielensConfig.edges.map edgeTypeName).Nodup := by decide
  have h₂ : edgeEndpointsDeclared movielensConfig = true := by decide
  have h₃ : allTransformsRecognized movielensConfig = true := by decide
  have h₄ : allRatesValid movielensConfig = true := by
    unfold allRatesValid
    rw [List.all_eq_true]
    intro l hl
    rw [decide_eq_true_eq]
    have hls : cfgLabels movielensConfig =
        [⟨"age", "regression", 8/10, 1/10, 1/10⟩,
          ⟨"label", "classification", 8/10, 1/10, 1/10⟩,
          ⟨"rate", "classification", 8/10, 1/10, 1/10⟩] := rfl
    rw [hls] at hl
    fin_cases hl <;> simp [labelRatesOk, rateEpsilon] <;> norm_num
  simp [compile, h₁, h₂, h₃, h₄]

end GraphStorm

